import Mathlib

/-!
Shallow embedding of the client-side data-normalization and derived-metrics
engine of the block-size visualizer, together with its resilient
data-acquisition layer.

Sources embedded:
* frontend/app/components/BlockSizeMetrics.tsx (useMemo normalization,
  top-2-plus-Other aggregation, final re-normalization);
* the API service module (fetchBlock and friends: mock-mode circuit breaker,
  failure counter, blob-fee fallback computation);
* frontend/app/components/RangeSelector.tsx (handleSubmit validation).

Numbers are modelled exactly: byte counts as integers, intermediate scale
factors as rationals, and the blob-fee exponential over the reals.
JS Math.round agrees with Mathlib round (both are floor (x + 1/2)).
-/

namespace BlockVibe

/-- Model of one JSON component entry: field name and byte count. -/
abbrev Entry := String × ℤ

/-- Model of the components object as an ordered association list,
preserving JS object iteration order. -/
abbrev ComponentMap := List Entry

/-- Key of the execution payload field. -/
def execKey : String := "execution_payload"

/-- Key of the attestations field. -/
def attKey : String := "attestations"

/-- Key of the deposits field. -/
def depKey : String := "deposits"

/-- Key of the proposer slashings field. -/
def propSlashKey : String := "proposer_slashings"

/-- Key of the attester slashings field. -/
def attSlashKey : String := "attester_slashings"

/-- Key of the voluntary exits field. -/
def volExitKey : String := "voluntary_exits"

/-- Key of the sync aggregate field. -/
def syncKey : String := "sync_aggregate"

/-- Key of the blob KZG commitments field. -/
def blobKey : String := "blob_kzg_commitments"

/-- Sum of the byte counts of a component map. -/
def sumValues (m : ComponentMap) : ℤ := (m.map Prod.snd).sum

/-- Detection of the execution-payload anomaly, mirroring
the source test of components.execution_payload at or above ssz_size times 0.95.
A missing field compares as JS undefined, which is never at or above the bound. -/
def hasInvalidExecutionPayload (m : ComponentMap) (ssz : ℕ) : Bool :=
  match m.lookup execKey with
  | some v => decide ((ssz : ℚ) * (95 / 100) ≤ (v : ℚ))
  | none => false

/-- Detection of the attestations anomaly, mirroring
the source test of components.attestations at or above ssz_size times 0.8. -/
def hasInvalidAttestations (m : ComponentMap) (ssz : ℕ) : Bool :=
  match m.lookup attKey with
  | some v => decide ((ssz : ℚ) * (80 / 100) ≤ (v : ℚ))
  | none => false

/-- Per-entry correction and clamp, mirroring the source loop body:
replace a detected anomalous execution payload by round(ssz_size times 0.65),
a detected anomalous attestations value by round(ssz_size times 0.25),
then clamp with min against ssz_size. -/
def adjustValue (hEP hAtt : Bool) (ssz : ℕ) (e : Entry) : ℤ :=
  let a1 : ℤ := if e.1 = execKey ∧ hEP then round ((ssz : ℚ) * (65 / 100)) else e.2
  let a2 : ℤ := if e.1 = attKey ∧ hAtt then round ((ssz : ℚ) * (25 / 100)) else a1
  min a2 (ssz : ℤ)

/-- Anomaly-correction and clamping stage of the normalizer
(the forEach loop filling componentTotals). -/
def clampCorrect (m : ComponentMap) (ssz : ℕ) : ComponentMap :=
  m.map (fun e =>
    (e.1, adjustValue (hasInvalidExecutionPayload m ssz) (hasInvalidAttestations m ssz) ssz e))

/-- Proportional rescaling stage of the normalizer: when the corrected
values sum to more than ssz_size, multiply every value by the scale factor
ssz_size / componentsSum and round to the nearest integer. -/
def rescale (m : ComponentMap) (ssz : ℕ) : ComponentMap :=
  if (ssz : ℤ) < sumValues m then
    m.map (fun e => (e.1, round ((e.2 : ℚ) * ((ssz : ℚ) / ((sumValues m : ℤ) : ℚ)))))
  else m

/-- Full ComponentNormalizer: anomaly correction, clamping, then
conditional proportional rescaling. -/
def normalizeComponents (m : ComponentMap) (ssz : ℕ) : ComponentMap :=
  rescale (clampCorrect m ssz) ssz

/-- Entry of the pie breakdown: display name, byte count, and for the
synthetic Other entry the folded-in components. -/
structure PieItem where
  name : String
  value : ℤ
  components : List Entry
deriving DecidableEq

/-- Name of the synthetic remainder entry. -/
def otherKey : String := "Other"

/-- Stable descending sort by value, modelling the stable JS Array.sort
with comparator (a, b) => b.value - a.value. -/
def sortDesc (m : ComponentMap) : ComponentMap :=
  m.mergeSort (fun a b => decide (b.2 ≤ a.2))

/-- Plain component entry viewed as a pie item. -/
def entryItem (e : Entry) : PieItem := ⟨e.1, e.2, []⟩

/-- Aggregator: top 2 components by size plus one Other entry summing the
remainder, the remainder entry kept only when its sum is positive. -/
def pieEntries (m : ComponentMap) : List PieItem :=
  let sorted := sortDesc m
  let top := if 0 < sorted.length then (sorted.take 2).map entryItem else []
  if 2 < sorted.length then
    let otherComps := sorted.drop 2
    let otherSum := sumValues otherComps
    if 0 < otherSum then top ++ [⟨otherKey, otherSum, otherComps⟩] else top
  else top

/-- Sum of the values of a pie breakdown. -/
def pieTotal (pie : List PieItem) : ℤ := (pie.map PieItem.value).sum

/-- Final double-check of the source: when the pie total differs from
ssz_size by more than 1, rescale every pie value by ssz_size / pieTotal
and round. -/
def renormalizePie (pie : List PieItem) (ssz : ℕ) : List PieItem :=
  let t := pieTotal pie
  if 1 < |t - (ssz : ℤ)| then
    pie.map (fun it => { it with value := round ((it.value : ℚ) * ((ssz : ℚ) / (t : ℚ))) })
  else pie

/-- Whole displayed-breakdown pipeline for one block:
normalization, aggregation, final re-normalization. -/
def blockPieData (m : ComponentMap) (ssz : ℕ) : List PieItem :=
  renormalizePie (pieEntries (normalizeComponents m ssz)) ssz

/-- Update fraction constant of the EIP-4844 fee curve used by the source. -/
def updateFraction : ℕ := 3338477

/-- Raw Gwei value of the fallback fee computation before the zero fixup:
the source computes blobBaseFeeWei = 1 * exp(g / 3338477) and then
Math.round(blobBaseFeeWei / 1e9). -/
noncomputable def rawFeeGwei (g : ℕ) : ℤ :=
  round ((1 * Real.exp ((g : ℝ) / (updateFraction : ℝ))) / 1000000000)

/-- FeeEstimator: blob base fee in Gwei derived from excess blob gas,
modelling the fallback computation in fetchBlobFee:
round(1 * exp(g / 3338477) / 1e9), forced to 1 when that rounds to 0 while
the excess gas is positive. -/
noncomputable def feeEstimator (g : ℕ) : ℤ :=
  let feeGwei : ℤ := rawFeeGwei g
  if feeGwei = 0 ∧ 0 < g then 1 else feeGwei

/-- Upstream blob-fee record as received: blob_base_fee is none when the
field is missing or not a number. -/
structure BlobFeeRaw where
  slot : ℕ
  excess_blob_gas : ℕ
  blob_base_fee : Option ℤ
deriving DecidableEq

/-- Validation step of fetchBlobFee on a successful response: a missing or
zero blob_base_fee together with positive excess_blob_gas is replaced by the
fallback estimate; every other record is returned unchanged. -/
noncomputable def validateBlobFee (d : BlobFeeRaw) : BlobFeeRaw :=
  let invalid : Bool :=
    match d.blob_base_fee with
    | some f => decide (f = 0)
    | none => true
  if invalid ∧ 0 < d.excess_blob_gas then
    { d with blob_base_fee := some (feeEstimator d.excess_blob_gas) }
  else d

/-- Global circuit state of the fetch layer: the session failure counter and
the explicit mock URL flag. -/
structure FetchState where
  failureCount : ℕ
  mockParam : Bool
deriving DecidableEq

/-- Mirror of shouldUseMockData: explicit mock flag, or failure counter
strictly above 3. -/
def shouldUseMockData (s : FetchState) : Bool :=
  s.mockParam || decide (3 < s.failureCount)

/-- Mirror of recordApiFailure: increment the session failure counter. -/
def recordApiFailure (s : FetchState) : FetchState :=
  { s with failureCount := s.failureCount + 1 }

/-- Mirror of resetApiFailureCounter: set the counter back to 0. -/
def resetApiFailureCounter (s : FetchState) : FetchState :=
  { s with failureCount := 0 }

/-- Environment outcome of one attempted HTTP request: a parsed payload, a
network-class failure with no response, or a response that is an HTTP error
or unparseable. -/
inductive Outcome (α : Type) where
  | success (payload : α)
  | networkError
  | httpError
deriving DecidableEq

/-- Observable result of one fetch operation: real payload, synthetic mock
payload, or an error re-raised to the caller. -/
inductive FetchResult (α : Type) where
  | real (payload : α)
  | mock
  | raised
deriving DecidableEq

/-- Poststate of one fetch call: new circuit state, result, and whether a
network request was issued at all. -/
structure FetchStep (α : Type) where
  state : FetchState
  result : FetchResult α
  issuedRequest : Bool
deriving DecidableEq

/-- Model of fetchBlock (and of the identically-structured range fetchers):
mock mode short-circuits without a request; otherwise a success resets the
counter, a network-class failure increments it and resolves with mock data,
and an HTTP or parsing error increments it and re-raises. -/
def fetchBlockModel {α : Type} (s : FetchState) (o : Outcome α) : FetchStep α :=
  if shouldUseMockData s then ⟨s, .mock, false⟩
  else
    match o with
    | .success d => ⟨resetApiFailureCounter s, .real d, true⟩
    | .networkError => ⟨recordApiFailure s, .mock, true⟩
    | .httpError => ⟨recordApiFailure s, .raised, true⟩

/-- Iterated fetch calls, threading only the circuit state. -/
def runFetches {α : Type} (s : FetchState) (os : List (Outcome α)) : FetchState :=
  os.foldl (fun st o => (fetchBlockModel st o).state) s

/-- Error message of the range form for unparseable input. -/
def msgInvalidSlots : String := "Please enter valid slot numbers"

/-- Error message of the range form for a negative bound. -/
def msgNegative : String := "Slot numbers must be positive"

/-- Error message of the range form for start above end. -/
def msgStartAfterEnd : String := "Start slot must be less than or equal to end slot"

/-- Error message of the range form for a span above 100 slots. -/
def msgTooLarge : String := "Maximum range is 100 slots"

/-- Result of one submit of the range form: a field-level validation error,
or an accepted range handed to onRangeChange. -/
inductive SubmitResult where
  | rejected (message : String)
  | accepted (startSlot endSlot : ℤ)
deriving DecidableEq

/-- Model of handleSubmit in RangeSelector: the two bounds after parseInt,
none standing for NaN. Checks run in source order: NaN, negativity,
start above end, span above 100; only then is onRangeChange invoked. -/
def handleSubmit (s e : Option ℤ) : SubmitResult :=
  match s, e with
  | some a, some b =>
    if a < 0 ∨ b < 0 then .rejected msgNegative
    else if b < a then .rejected msgStartAfterEnd
    else if 100 < b - a then .rejected msgTooLarge
    else .accepted a b
  | _, _ => .rejected msgInvalidSlots

/-- Concrete component map with an anomalous execution payload equal to
0.97 of the ssz_size 100, in the fixed 8-field shape. -/
def c2Map : ComponentMap :=
  [(execKey, 97), (attKey, 24), (depKey, 0), (propSlashKey, 0),
   (attSlashKey, 0), (volExitKey, 0), (syncKey, 2), (blobKey, 1)]

/-- Concrete component map whose clamped values sum to 3 against an
ssz_size of 2, exercising the rescale-and-round step. -/
def c3Map : ComponentMap :=
  [(execKey, 1), (attKey, 1), (depKey, 1), (propSlashKey, 0),
   (attSlashKey, 0), (volExitKey, 0), (syncKey, 0), (blobKey, 0)]

/-- Concrete component map holding a negative upstream byte count. -/
def c4Map : ComponentMap :=
  [(execKey, 10), (attKey, 5), (depKey, -7), (propSlashKey, 0),
   (attSlashKey, 0), (volExitKey, 0), (syncKey, 0), (blobKey, 0)]

/-- Concrete corrected component map whose values sum to 45, far below the
ssz_size 100 used with it. -/
def c6Map : ComponentMap :=
  [(execKey, 30), (attKey, 10), (depKey, 5), (propSlashKey, 0),
   (attSlashKey, 0), (volExitKey, 0), (syncKey, 0), (blobKey, 0)]

/-! General lemmas about rounding, shared by several developments below. -/

/-- Rounding is monotone. -/
lemma round_mono {α : Type} [LinearOrderedField α] [FloorRing α] {x y : α}
    (h : x ≤ y) : round x ≤ round y := by
  rw [round_eq, round_eq]
  exact Int.floor_le_floor (by linarith)

/-- Rounding a non-negative number gives a non-negative integer. -/
lemma round_nonneg {α : Type} [LinearOrderedField α] [FloorRing α] {x : α}
    (h : 0 ≤ x) : 0 ≤ round x := by
  have h0 := round_mono h
  simpa using h0

/-! Lemmas about the fee estimator. -/

lemma rawFeeGwei_nonneg (g : ℕ) : 0 ≤ rawFeeGwei g := by
  apply round_nonneg
  positivity

lemma rawFeeGwei_mono {g1 g2 : ℕ} (h : g1 ≤ g2) : rawFeeGwei g1 ≤ rawFeeGwei g2 := by
  apply round_mono
  have hfrac : (0 : ℝ) < (updateFraction : ℝ) := by
    norm_num [updateFraction]
  have hcast : ((g1 : ℝ)) ≤ (g2 : ℝ) := by exact_mod_cast h
  have hexp : Real.exp ((g1 : ℝ) / (updateFraction : ℝ)) ≤
      Real.exp ((g2 : ℝ) / (updateFraction : ℝ)) :=
    Real.exp_le_exp.mpr ((div_le_div_iff_of_pos_right hfrac).mpr hcast)
  have h9 : (0 : ℝ) < 1000000000 := by norm_num
  calc (1 * Real.exp ((g1 : ℝ) / (updateFraction : ℝ))) / 1000000000
      ≤ (1 * Real.exp ((g2 : ℝ) / (updateFraction : ℝ))) / 1000000000 := by
        apply (div_le_div_iff_of_pos_right h9).mpr
        linarith

lemma rawFeeGwei_zero : rawFeeGwei 0 = 0 := by
  have hz : ((1 : ℝ) * Real.exp ((0 : ℕ) / (updateFraction : ℝ))) / 1000000000 =
      1 / 1000000000 := by
    norm_num
  rw [rawFeeGwei, hz, round_eq]
  rw [Int.floor_eq_zero_iff]
  constructor <;> norm_num

lemma feeEstimator_zero : feeEstimator 0 = 0 := by
  simp [feeEstimator, rawFeeGwei_zero]

lemma feeEstimator_pos_eq_max {g : ℕ} (h : 0 < g) :
    feeEstimator g = max (rawFeeGwei g) 1 := by
  rw [feeEstimator]
  rcases eq_or_ne (rawFeeGwei g) 0 with h0 | h0
  · rw [if_pos ⟨h0, h⟩, h0]
    simp
  · rw [if_neg (by simp [h0])]
    have h1 : 1 ≤ rawFeeGwei g := by
      have := rawFeeGwei_nonneg g
      omega
    exact (max_eq_left h1).symm

lemma feeEstimator_ge_one {g : ℕ} (h : 0 < g) : 1 ≤ feeEstimator g := by
  rw [feeEstimator_pos_eq_max h]
  exact le_max_right _ _

lemma feeEstimator_nonneg (g : ℕ) : 0 ≤ feeEstimator g := by
  rcases Nat.eq_zero_or_pos g with h | h
  · rw [h, feeEstimator_zero]
  · have := feeEstimator_ge_one h
    omega

lemma feeEstimator_mono {g1 g2 : ℕ} (h : g1 ≤ g2) :
    feeEstimator g1 ≤ feeEstimator g2 := by
  rcases Nat.eq_zero_or_pos g1 with h1 | h1
  · rw [h1, feeEstimator_zero]
    exact feeEstimator_nonneg g2
  · have h2 : 0 < g2 := lt_of_lt_of_le h1 h
    rw [feeEstimator_pos_eq_max h1, feeEstimator_pos_eq_max h2]
    exact max_le_max (rawFeeGwei_mono h) le_rfl

/-- C8: the fee estimate is monotonically non-decreasing in excess blob gas,
FeeEstimator(0) = 0, and FeeEstimator(g) is at least 1 for every g > 0. -/
theorem c8_fee_estimator_monotone :
    (∀ g1 g2 : ℕ, g1 ≤ g2 → feeEstimator g1 ≤ feeEstimator g2)
    ∧ feeEstimator 0 = 0
    ∧ (∀ g : ℕ, 0 < g → 1 ≤ feeEstimator g) :=
  ⟨fun _ _ h => feeEstimator_mono h, feeEstimator_zero, fun _ h => feeEstimator_ge_one h⟩

/-- C7: a fetched blob-fee record with missing or zero blob_base_fee and
positive excess_blob_gas has its fee replaced by the fallback estimate
round(1 * exp(g / 3338477) / 1e9) forced to 1 when that rounds to 0; a
record with a non-zero numeric upstream fee is returned unchanged; and a
returned fee of exactly 0 only happens when excess_blob_gas = 0. -/
theorem c7_blob_fee_validation (d : BlobFeeRaw) :
    ((d.blob_base_fee = none ∨ d.blob_base_fee = some 0) → 0 < d.excess_blob_gas →
      validateBlobFee d = { d with blob_base_fee := some (feeEstimator d.excess_blob_gas) })
    ∧ (∀ f : ℤ, d.blob_base_fee = some f → f ≠ 0 → validateBlobFee d = d)
    ∧ ((validateBlobFee d).blob_base_fee = some 0 → d.excess_blob_gas = 0) := by
  refine ⟨?_, ?_, ?_⟩
  · intro hf hg
    rcases hf with hf | hf <;>
      simp [validateBlobFee, hf, hg]
  · intro f hf hne
    simp [validateBlobFee, hf, hne]
  · intro h0
    by_contra hg
    have hg' : 0 < d.excess_blob_gas := Nat.pos_of_ne_zero hg
    rcases hd : d.blob_base_fee with _ | f
    · rw [validateBlobFee] at h0
      simp [hd, hg'] at h0
      have := feeEstimator_ge_one hg'
      omega
    · rcases eq_or_ne f 0 with rfl | hne
      · rw [validateBlobFee] at h0
        simp [hd, hg'] at h0
        have := feeEstimator_ge_one hg'
        omega
      · rw [validateBlobFee] at h0
        simp [hd, hne] at h0

/-- Witness for C7 at a concrete record with a missing fee field. -/
theorem c7_blob_fee_validation_witness :
    validateBlobFee ⟨12345, 5, none⟩ =
      { slot := 12345, excess_blob_gas := 5, blob_base_fee := some (feeEstimator 5) } :=
  (c7_blob_fee_validation ⟨12345, 5, none⟩).1 (Or.inl rfl) (by norm_num)

/-- Witness for C8: the inner bounds applied at concrete gas values. -/
theorem c8_fee_estimator_monotone_witness :
    feeEstimator 2 ≤ feeEstimator 7 ∧ feeEstimator 0 = 0 ∧ 1 ≤ feeEstimator 7 :=
  ⟨c8_fee_estimator_monotone.1 2 7 (by norm_num),
   c8_fee_estimator_monotone.2.1,
   c8_fee_estimator_monotone.2.2 7 (by norm_num)⟩

/-! Claims about the resilient fetch client. -/

/-- C9: for one fetch call with the circuit closed, a network-class failure
increments the failure counter and resolves with synthetic data instead of
rejecting; an HTTP error or parse failure increments the counter and
re-raises; a success resets the counter to 0 and returns the payload. -/
theorem c9_fetch_error_handling {α : Type} (s : FetchState)
    (h : shouldUseMockData s = false) (d : α) :
    (fetchBlockModel s (Outcome.networkError : Outcome α)).result = FetchResult.mock
    ∧ (fetchBlockModel s (Outcome.networkError : Outcome α)).state.failureCount =
        s.failureCount + 1
    ∧ (fetchBlockModel s (Outcome.httpError : Outcome α)).result = FetchResult.raised
    ∧ (fetchBlockModel s (Outcome.httpError : Outcome α)).state.failureCount =
        s.failureCount + 1
    ∧ (fetchBlockModel s (Outcome.success d)).result = FetchResult.real d
    ∧ (fetchBlockModel s (Outcome.success d)).state.failureCount = 0 := by
  simp [fetchBlockModel, h, recordApiFailure, resetApiFailureCounter]

/-- Witness for C9 at a concrete circuit-closed state. -/
theorem c9_fetch_error_handling_witness :
    (fetchBlockModel ⟨1, false⟩ (Outcome.networkError : Outcome Unit)).result =
        FetchResult.mock
    ∧ (fetchBlockModel ⟨1, false⟩ (Outcome.networkError : Outcome Unit)).state.failureCount = 2
    ∧ (fetchBlockModel ⟨1, false⟩ (Outcome.httpError : Outcome Unit)).result =
        FetchResult.raised
    ∧ (fetchBlockModel ⟨1, false⟩ (Outcome.httpError : Outcome Unit)).state.failureCount = 2
    ∧ (fetchBlockModel ⟨1, false⟩ (Outcome.success ())).result = FetchResult.real ()
    ∧ (fetchBlockModel ⟨1, false⟩ (Outcome.success ())).state.failureCount = 0 :=
  c9_fetch_error_handling ⟨1, false⟩ (by decide) ()

/-- C1 counterexample: starting from a fresh session (counter 0, no mock
flag), after exactly three consecutive network-class failures the counter is
3, the circuit is still closed, and the immediately following fourth fetch
attempt does issue a network request, contradicting the claim that it is
served synthetically without any network call. -/
theorem c1_counterexample :
    (runFetches ⟨0, false⟩ (List.replicate 3 (Outcome.networkError : Outcome Unit))).failureCount = 3
    ∧ shouldUseMockData
        (runFetches ⟨0, false⟩ (List.replicate 3 (Outcome.networkError : Outcome Unit))) = false
    ∧ (fetchBlockModel
        (runFetches ⟨0, false⟩ (List.replicate 3 (Outcome.networkError : Outcome Unit)))
        (Outcome.networkError : Outcome Unit)).issuedRequest = true := by
  decide

/-- C1 amended: four consecutive network-class failures (taking the counter
to 4, strictly above the threshold 3) are needed before a fetch attempt is
served synthetically without a network request occurring; and from any
circuit-closed state, one successful call resets the counter to 0. -/
theorem c1_amended_circuit_threshold (s : FetchState)
    (hm : s.mockParam = false) (hc : s.failureCount = 0) :
    (runFetches s (List.replicate 4 (Outcome.networkError : Outcome Unit))).failureCount = 4
    ∧ (∀ o : Outcome Unit,
        (fetchBlockModel
          (runFetches s (List.replicate 4 (Outcome.networkError : Outcome Unit))) o).issuedRequest
          = false
        ∧ (fetchBlockModel
            (runFetches s (List.replicate 4 (Outcome.networkError : Outcome Unit))) o).result
            = FetchResult.mock)
    ∧ (∀ (s' : FetchState) (d : Unit), shouldUseMockData s' = false →
        (fetchBlockModel s' (Outcome.success d)).state.failureCount = 0) := by
  obtain ⟨c, mp⟩ := s
  simp only at hm hc
  subst hm hc
  refine ⟨by decide, ?_, ?_⟩
  · intro o
    have hstate :
        runFetches ⟨0, false⟩ (List.replicate 4 (Outcome.networkError : Outcome Unit)) =
          ⟨4, false⟩ := by decide
    rw [hstate]
    constructor <;> simp [fetchBlockModel, shouldUseMockData]
  · intro s' d h
    simp [fetchBlockModel, h, resetApiFailureCounter]

/-- Witness for C1 amended at the fresh session state. -/
theorem c1_amended_circuit_threshold_witness :
    (runFetches ⟨0, false⟩ (List.replicate 4 (Outcome.networkError : Outcome Unit))).failureCount = 4
    ∧ (fetchBlockModel
        (runFetches ⟨0, false⟩ (List.replicate 4 (Outcome.networkError : Outcome Unit)))
        (Outcome.networkError : Outcome Unit)).issuedRequest = false :=
  ⟨(c1_amended_circuit_threshold ⟨0, false⟩ rfl rfl).1,
   ((c1_amended_circuit_threshold ⟨0, false⟩ rfl rfl).2.1 Outcome.networkError).1⟩

/-! Claim about the range form validation. -/

/-- C10: a submitted pair is accepted, and handed unchanged to
onRangeChange, exactly when both bounds parse to non-negative integers with
start at most end and a span of at most 100; the pair (50, 10) is rejected
with the start-must-not-exceed-end message, and (0, 150) is rejected as
exceeding the maximum span. -/
theorem c10_range_validation :
    (∀ (s e : Option ℤ) (a b : ℤ),
      handleSubmit s e = SubmitResult.accepted a b ↔
        (s = some a ∧ e = some b ∧ 0 ≤ a ∧ 0 ≤ b ∧ a ≤ b ∧ b - a ≤ 100))
    ∧ handleSubmit (some 50) (some 10) = SubmitResult.rejected msgStartAfterEnd
    ∧ handleSubmit (some 0) (some 150) = SubmitResult.rejected msgTooLarge := by
  refine ⟨?_, by rfl, by rfl⟩
  intro s e a b
  constructor
  · intro h
    match s, e with
    | none, none => simp [handleSubmit] at h
    | none, some b' => simp [handleSubmit] at h
    | some a', none => simp [handleSubmit] at h
    | some a', some b' =>
      rw [handleSubmit] at h
      split at h
      · simp at h
      · split at h
        · simp at h
        · split at h
          · simp at h
          · rename_i h1 h2 h3
            cases h
            refine ⟨rfl, rfl, ?_, ?_, ?_, ?_⟩ <;> omega
  · rintro ⟨rfl, rfl, h1, h2, h3, h4⟩
    rw [handleSubmit]
    rw [if_neg (by omega), if_neg (by omega), if_neg (by omega)]

/-- Witness for C10: a valid pair is accepted via the characterization. -/
theorem c10_range_validation_witness :
    handleSubmit (some 3) (some 20) = SubmitResult.accepted 3 20 :=
  (c10_range_validation.1 (some 3) (some 20) 3 20).mpr
    ⟨rfl, rfl, by decide, by decide, by decide, by decide⟩

/-! Lemmas about the component normalizer. -/

lemma lookup_of_mem_nodup {m : ComponentMap} {k : String} {v : ℤ}
    (hnd : (m.map Prod.fst).Nodup) (hm : (k, v) ∈ m) : m.lookup k = some v := by
  induction m with
  | nil => cases hm
  | cons e t ih =>
    obtain ⟨k1, v1⟩ := e
    simp only [List.map_cons, List.nodup_cons] at hnd
    rcases List.mem_cons.mp hm with he | hm'
    · cases he
      simp [List.lookup]
    · have hne : k1 ≠ k := by
        intro h
        exact hnd.1 (h ▸ List.mem_map_of_mem Prod.fst hm')
      rw [List.lookup]
      rw [show (k == k1) = false from beq_eq_false_iff_ne.mpr (Ne.symm hne)]
      exact ih hnd.2 hm'

lemma hasInvalidEP_eq {m : ComponentMap} (ssz : ℕ) {v : ℤ}
    (hnd : (m.map Prod.fst).Nodup) (hm : (execKey, v) ∈ m) :
    hasInvalidExecutionPayload m ssz = decide ((ssz : ℚ) * (95 / 100) ≤ (v : ℚ)) := by
  rw [hasInvalidExecutionPayload, lookup_of_mem_nodup hnd hm]

lemma hasInvalidAtt_eq {m : ComponentMap} (ssz : ℕ) {v : ℤ}
    (hnd : (m.map Prod.fst).Nodup) (hm : (attKey, v) ∈ m) :
    hasInvalidAttestations m ssz = decide ((ssz : ℚ) * (80 / 100) ≤ (v : ℚ)) := by
  rw [hasInvalidAttestations, lookup_of_mem_nodup hnd hm]

lemma round_le_natCast {x : ℚ} {n : ℕ} (h : x ≤ (n : ℚ)) : round x ≤ (n : ℤ) := by
  have h0 := round_mono h
  rwa [round_natCast] at h0

lemma pct65_le (ssz : ℕ) : round ((ssz : ℚ) * (65 / 100)) ≤ (ssz : ℤ) := by
  apply round_le_natCast
  have h0 : (0 : ℚ) ≤ (ssz : ℚ) := Nat.cast_nonneg ssz
  linarith

lemma pct25_le (ssz : ℕ) : round ((ssz : ℚ) * (25 / 100)) ≤ (ssz : ℤ) := by
  apply round_le_natCast
  have h0 : (0 : ℚ) ≤ (ssz : ℚ) := Nat.cast_nonneg ssz
  linarith

lemma adjustValue_exec_true (hA : Bool) (ssz : ℕ) (v : ℤ) :
    adjustValue true hA ssz (execKey, v) = round ((ssz : ℚ) * (65 / 100)) := by
  have hne : execKey ≠ attKey := by decide
  simp [adjustValue, hne, min_eq_left (pct65_le ssz)]

lemma adjustValue_exec_false (hA : Bool) (ssz : ℕ) (v : ℤ) :
    adjustValue false hA ssz (execKey, v) = min v (ssz : ℤ) := by
  have hne : execKey ≠ attKey := by decide
  simp [adjustValue, hne]

lemma adjustValue_att_true (hE : Bool) (ssz : ℕ) (v : ℤ) :
    adjustValue hE true ssz (attKey, v) = round ((ssz : ℚ) * (25 / 100)) := by
  have hne : attKey ≠ execKey := by decide
  simp [adjustValue, hne, min_eq_left (pct25_le ssz)]

lemma adjustValue_att_false (hE : Bool) (ssz : ℕ) (v : ℤ) :
    adjustValue hE false ssz (attKey, v) = min v (ssz : ℤ) := by
  have hne : attKey ≠ execKey := by decide
  simp [adjustValue, hne]

lemma adjustValue_other (hE hA : Bool) (ssz : ℕ) (e : Entry)
    (h1 : e.1 ≠ execKey) (h2 : e.1 ≠ attKey) :
    adjustValue hE hA ssz e = min e.2 (ssz : ℤ) := by
  simp [adjustValue, h1, h2]

lemma mem_clampCorrect_of_mem {m : ComponentMap} (ssz : ℕ) {e : Entry} (he : e ∈ m) :
    (e.1, adjustValue (hasInvalidExecutionPayload m ssz) (hasInvalidAttestations m ssz) ssz e)
      ∈ clampCorrect m ssz := by
  rw [clampCorrect]
  exact List.mem_map_of_mem _ he

/-- C2: normalization replaces the execution payload entry by
round(0.65 * ssz_size) exactly when its raw value is at least
0.95 * ssz_size, replaces the attestations entry by round(0.25 * ssz_size)
exactly when its raw value is at least 0.8 * ssz_size, and every other
entry is only clamped, never anomaly-corrected. -/
theorem c2_anomaly_correction (m : ComponentMap) (ssz : ℕ)
    (hnd : (m.map Prod.fst).Nodup) :
    (∀ v : ℤ, (execKey, v) ∈ m →
      (((ssz : ℚ) * (95 / 100) ≤ (v : ℚ) →
          (execKey, round ((ssz : ℚ) * (65 / 100))) ∈ clampCorrect m ssz)
        ∧ (¬ (ssz : ℚ) * (95 / 100) ≤ (v : ℚ) →
          (execKey, min v (ssz : ℤ)) ∈ clampCorrect m ssz)))
    ∧ (∀ v : ℤ, (attKey, v) ∈ m →
      (((ssz : ℚ) * (80 / 100) ≤ (v : ℚ) →
          (attKey, round ((ssz : ℚ) * (25 / 100))) ∈ clampCorrect m ssz)
        ∧ (¬ (ssz : ℚ) * (80 / 100) ≤ (v : ℚ) →
          (attKey, min v (ssz : ℤ)) ∈ clampCorrect m ssz)))
    ∧ (∀ e ∈ m, e.1 ≠ execKey → e.1 ≠ attKey →
        (e.1, min e.2 (ssz : ℤ)) ∈ clampCorrect m ssz) := by
  refine ⟨?_, ?_, ?_⟩
  · intro v hm
    have hEP := hasInvalidEP_eq ssz hnd hm
    constructor
    · intro hth
      have hEPt : hasInvalidExecutionPayload m ssz = true := by
        rw [hEP]
        exact decide_eq_true hth
      have h0 := mem_clampCorrect_of_mem ssz hm
      rwa [hEPt, adjustValue_exec_true] at h0
    · intro hth
      have hEPf : hasInvalidExecutionPayload m ssz = false := by
        rw [hEP]
        exact decide_eq_false hth
      have h0 := mem_clampCorrect_of_mem ssz hm
      rwa [hEPf, adjustValue_exec_false] at h0
  · intro v hm
    have hAt := hasInvalidAtt_eq ssz hnd hm
    constructor
    · intro hth
      have hAtt : hasInvalidAttestations m ssz = true := by
        rw [hAt]
        exact decide_eq_true hth
      have h0 := mem_clampCorrect_of_mem ssz hm
      rwa [hAtt, adjustValue_att_true] at h0
    · intro hth
      have hAtf : hasInvalidAttestations m ssz = false := by
        rw [hAt]
        exact decide_eq_false hth
      have h0 := mem_clampCorrect_of_mem ssz hm
      rwa [hAtf, adjustValue_att_false] at h0
  · intro e he h1 h2
    have h0 := mem_clampCorrect_of_mem ssz he
    rwa [adjustValue_other _ _ _ _ h1 h2] at h0

/-- Witness for C2: a block with execution_payload equal to 0.97 of the
ssz_size 100 has that entry replaced by 65 = 0.65 * 100. -/
theorem c2_anomaly_correction_witness :
    (execKey, (65 : ℤ)) ∈ clampCorrect c2Map 100 := by
  have h :=
    ((c2_anomaly_correction c2Map 100 (by decide)).1 97 (by decide)).1 (by norm_num)
  have h65 : round (((100 : ℕ) : ℚ) * (65 / 100)) = (65 : ℤ) := by
    norm_num [round_eq]
  rwa [h65] at h

/-! Sum and cast helpers for the rescaling stage. -/

lemma sumValues_map_snd (m : ComponentMap) (f : Entry → ℤ) :
    sumValues (m.map (fun e => (e.1, f e))) = (m.map f).sum := by
  simp [sumValues, List.map_map, Function.comp_def]

lemma cast_sumValues (m : ComponentMap) :
    ((sumValues m : ℤ) : ℚ) = (m.map (fun e => ((e.2 : ℤ) : ℚ))).sum := by
  rw [sumValues, Int.cast_list_sum, List.map_map]
  rfl

lemma sum_round_le (l : List ℚ) :
    (((l.map (fun x => round x)).sum : ℤ) : ℚ) ≤ l.sum + (l.length : ℚ) / 2 := by
  induction l with
  | nil => simp
  | cons x t ih =>
    simp only [List.map_cons, List.sum_cons, List.length_cons]
    push_cast
    push_cast at ih
    have hx : ((round x : ℤ) : ℚ) ≤ x + 1 / 2 := round_le_add_half x
    linarith

lemma abs_sum_round_sub (l : List ℚ) :
    |(((l.map (fun x => round x)).sum : ℤ) : ℚ) - l.sum| ≤ (l.length : ℚ) / 2 := by
  induction l with
  | nil => simp
  | cons x t ih =>
    have key : ((List.map (fun x => round x) (x :: t)).sum : ℤ)
        = round x + (List.map (fun x => round x) t).sum := by
      simp
    rw [List.sum_cons, List.length_cons, key, Int.cast_add]
    have hx : |((round x : ℤ) : ℚ) - x| ≤ 1 / 2 := by
      have h0 := abs_sub_round x
      rwa [abs_sub_comm] at h0
    have hre : ((round x : ℤ) : ℚ) + (((t.map (fun x => round x)).sum : ℤ) : ℚ)
        - (x + t.sum)
        = (((round x : ℤ) : ℚ) - x)
          + ((((t.map (fun x => round x)).sum : ℤ) : ℚ) - t.sum) := by
      ring
    rw [hre]
    have hcast : ((t.length + 1 : ℕ) : ℚ) = (t.length : ℚ) + 1 := by
      push_cast
      ring
    rw [hcast]
    calc |(((round x : ℤ) : ℚ) - x)
            + ((((t.map (fun x => round x)).sum : ℤ) : ℚ) - t.sum)|
        ≤ |((round x : ℤ) : ℚ) - x|
            + |(((t.map (fun x => round x)).sum : ℤ) : ℚ) - t.sum| := abs_add _ _
      _ ≤ 1 / 2 + (t.length : ℚ) / 2 := add_le_add hx ih
      _ = ((t.length : ℚ) + 1) / 2 := by ring

lemma sum_scaled (c : ComponentMap) (ssz : ℕ) (hs : sumValues c ≠ 0) :
    (c.map (fun e => (e.2 : ℚ) * ((ssz : ℚ) / ((sumValues c : ℤ) : ℚ)))).sum = (ssz : ℚ) := by
  rw [List.sum_map_mul_right, ← cast_sumValues]
  have hs' : ((sumValues c : ℤ) : ℚ) ≠ 0 := Int.cast_ne_zero.mpr hs
  rw [mul_comm, div_mul_cancel₀ _ hs']

lemma rescale_of_le {c : ComponentMap} {ssz : ℕ} (h : ¬ (ssz : ℤ) < sumValues c) :
    rescale c ssz = c := if_neg h

lemma rescale_of_lt {c : ComponentMap} {ssz : ℕ} (h : (ssz : ℤ) < sumValues c) :
    rescale c ssz =
      c.map (fun e => (e.1, round ((e.2 : ℚ) * ((ssz : ℚ) / ((sumValues c : ℤ) : ℚ))))) :=
  if_pos h

lemma sumValues_pos_of_lt {c : ComponentMap} {ssz : ℕ} (h : (ssz : ℤ) < sumValues c) :
    0 < sumValues c :=
  lt_of_le_of_lt (Int.natCast_nonneg ssz) h

lemma sumValues_rescale_le (c : ComponentMap) (ssz : ℕ) (h : (ssz : ℤ) < sumValues c) :
    ((sumValues (rescale c ssz) : ℤ) : ℚ) ≤ (ssz : ℚ) + (c.length : ℚ) / 2 := by
  rw [rescale_of_lt h, sumValues_map_snd]
  have hs : sumValues c ≠ 0 := (sumValues_pos_of_lt h).ne'
  have hrw : (c.map (fun e => round ((e.2 : ℚ) * ((ssz : ℚ) / ((sumValues c : ℤ) : ℚ)))))
      = ((c.map (fun e => (e.2 : ℚ) * ((ssz : ℚ) / ((sumValues c : ℤ) : ℚ)))).map
          (fun x => round x)) := by
    rw [List.map_map]
    rfl
  rw [hrw]
  have h0 := sum_round_le (c.map (fun e => (e.2 : ℚ) * ((ssz : ℚ) / ((sumValues c : ℤ) : ℚ))))
  rw [sum_scaled c ssz hs] at h0
  simpa using h0

/-! Bounds of the corrected values. -/

lemma adjustValue_nonneg {hE hA : Bool} {ssz : ℕ} {e : Entry} (he : 0 ≤ e.2) :
    0 ≤ adjustValue hE hA ssz e := by
  rw [adjustValue]
  apply le_min _ (Int.natCast_nonneg ssz)
  dsimp only
  split
  · exact round_nonneg (by positivity)
  · split
    · exact round_nonneg (by positivity)
    · exact he

lemma adjustValue_le {hE hA : Bool} {ssz : ℕ} {e : Entry} :
    adjustValue hE hA ssz e ≤ (ssz : ℤ) := by
  rw [adjustValue]
  exact min_le_right _ _

lemma clampCorrect_bounds (m : ComponentMap) (ssz : ℕ) (hnn : ∀ p ∈ m, 0 ≤ p.2) :
    ∀ q ∈ clampCorrect m ssz, 0 ≤ q.2 ∧ q.2 ≤ (ssz : ℤ) := by
  intro q hq
  rw [clampCorrect] at hq
  obtain ⟨e, he, rfl⟩ := List.mem_map.mp hq
  exact ⟨adjustValue_nonneg (hnn e he), adjustValue_le⟩

lemma rescale_bounds (c : ComponentMap) (ssz : ℕ)
    (hb : ∀ p ∈ c, 0 ≤ p.2 ∧ p.2 ≤ (ssz : ℤ)) :
    ∀ q ∈ rescale c ssz, 0 ≤ q.2 ∧ q.2 ≤ (ssz : ℤ) := by
  intro q hq
  by_cases h : (ssz : ℤ) < sumValues c
  · rw [rescale_of_lt h] at hq
    obtain ⟨e, he, rfl⟩ := List.mem_map.mp hq
    have hv0 : (0 : ℤ) ≤ e.2 := (hb e he).1
    have hs0 : (0 : ℤ) < sumValues c := sumValues_pos_of_lt h
    have hvS : e.2 ≤ sumValues c := by
      have hnn : ∀ x ∈ c.map Prod.snd, (0 : ℤ) ≤ x := by
        intro x hx
        obtain ⟨p, hp, rfl⟩ := List.mem_map.mp hx
        exact (hb p hp).1
      exact List.single_le_sum hnn e.2 (List.mem_map_of_mem Prod.snd he)
    have hK : (0 : ℚ) ≤ (ssz : ℚ) / ((sumValues c : ℤ) : ℚ) :=
      div_nonneg (Nat.cast_nonneg ssz) (by exact_mod_cast hs0.le)
    constructor
    · exact round_nonneg (mul_nonneg (by exact_mod_cast hv0) hK)
    · have hle : (e.2 : ℚ) * ((ssz : ℚ) / ((sumValues c : ℤ) : ℚ))
          ≤ ((sumValues c : ℤ) : ℚ) * ((ssz : ℚ) / ((sumValues c : ℤ) : ℚ)) :=
        mul_le_mul_of_nonneg_right (by exact_mod_cast hvS) hK
      have hSne : ((sumValues c : ℤ) : ℚ) ≠ 0 := by exact_mod_cast hs0.ne'
      have htop : ((sumValues c : ℤ) : ℚ) * ((ssz : ℚ) / ((sumValues c : ℤ) : ℚ))
          = (ssz : ℚ) := by
        field_simp
      exact round_le_natCast (le_trans hle (le_of_eq htop))
  · rw [rescale_of_le h] at hq
    exact hb q hq

/-- C4 amended: for every raw component map whose values are non-negative,
every value of the normalizer's output map is non-negative and at most
ssz_size. -/
theorem c4_amended_output_bounds (m : ComponentMap) (ssz : ℕ)
    (hnn : ∀ p ∈ m, 0 ≤ p.2) :
    ∀ q ∈ normalizeComponents m ssz, 0 ≤ q.2 ∧ q.2 ≤ (ssz : ℤ) := by
  intro q hq
  rw [normalizeComponents] at hq
  exact rescale_bounds _ _ (clampCorrect_bounds m ssz hnn) q hq

/-! Concrete evaluation lemmas for the counterexample maps. -/

lemma adjustValue_false_false (ssz : ℕ) (e : Entry) :
    adjustValue false false ssz e = min e.2 (ssz : ℤ) := by
  simp [adjustValue]

lemma c4Map_hEP : hasInvalidExecutionPayload c4Map 100 = false := by
  rw [hasInvalidExecutionPayload, show List.lookup execKey c4Map = some 10 from rfl]
  rw [decide_eq_false_iff_not]
  norm_num

lemma c4Map_hAtt : hasInvalidAttestations c4Map 100 = false := by
  rw [hasInvalidAttestations, show List.lookup attKey c4Map = some 5 from rfl]
  rw [decide_eq_false_iff_not]
  norm_num

lemma c4Map_normalize : normalizeComponents c4Map 100 = c4Map := by
  have hcl : clampCorrect c4Map 100 = c4Map := by
    rw [clampCorrect, c4Map_hEP, c4Map_hAtt]
    simp only [adjustValue_false_false]
    norm_num [c4Map, min_def]
  rw [normalizeComponents, hcl]
  apply rescale_of_le
  norm_num [sumValues, c4Map]

/-- C4 counterexample: a raw map with a negative upstream byte count passes
through the normalizer unchanged, so the output still holds the negative
value and the claimed output bound fails. -/
theorem c4_counterexample :
    ¬ (∀ q ∈ normalizeComponents c4Map 100, 0 ≤ q.2 ∧ q.2 ≤ (100 : ℤ)) := by
  intro h
  have hd : (depKey, (-7 : ℤ)) ∈ normalizeComponents c4Map 100 := by
    rw [c4Map_normalize]
    simp [c4Map]
  have h0 := (h _ hd).1
  norm_num at h0

lemma c2Map_hEP : hasInvalidExecutionPayload c2Map 100 = true := by
  rw [hasInvalidExecutionPayload, show List.lookup execKey c2Map = some 97 from rfl]
  rw [decide_eq_true_eq]
  norm_num

lemma c2Map_hAtt : hasInvalidAttestations c2Map 100 = false := by
  rw [hasInvalidAttestations, show List.lookup attKey c2Map = some 24 from rfl]
  rw [decide_eq_false_iff_not]
  norm_num

lemma c2Map_normalize : normalizeComponents c2Map 100 =
    [(execKey, 65), (attKey, 24), (depKey, 0), (propSlashKey, 0),
     (attSlashKey, 0), (volExitKey, 0), (syncKey, 2), (blobKey, 1)] := by
  have hcl : clampCorrect c2Map 100 =
      [(execKey, 65), (attKey, 24), (depKey, 0), (propSlashKey, 0),
       (attSlashKey, 0), (volExitKey, 0), (syncKey, 2), (blobKey, 1)] := by
    rw [clampCorrect, c2Map_hEP, c2Map_hAtt]
    have h65 := adjustValue_exec_true false 100 97
    have h24 := adjustValue_att_false true 100 24
    have hd := adjustValue_other true false 100 (depKey, 0) (by decide) (by decide)
    have hpsl := adjustValue_other true false 100 (propSlashKey, 0) (by decide) (by decide)
    have hasl := adjustValue_other true false 100 (attSlashKey, 0) (by decide) (by decide)
    have hvex := adjustValue_other true false 100 (volExitKey, 0) (by decide) (by decide)
    have hsync := adjustValue_other true false 100 (syncKey, 2) (by decide) (by decide)
    have hblob := adjustValue_other true false 100 (blobKey, 1) (by decide) (by decide)
    simp only [c2Map, List.map_cons, List.map_nil]
    rw [h65, h24, hd, hpsl, hasl, hvex, hsync, hblob]
    norm_num [round_eq, min_def]
  rw [normalizeComponents, hcl]
  apply rescale_of_le
  norm_num [sumValues]

/-- Witness for C4 amended at one concrete output entry. -/
theorem c4_amended_output_bounds_witness :
    0 ≤ ((execKey, (65 : ℤ)) : Entry).2 ∧ ((execKey, (65 : ℤ)) : Entry).2 ≤ ((100 : ℕ) : ℤ) :=
  c4_amended_output_bounds c2Map 100 (by decide) (execKey, 65)
    (by rw [c2Map_normalize]; simp)

/-! Evaluation of the C3 example map. -/

lemma c3Map_hEP : hasInvalidExecutionPayload c3Map 2 = false := by
  rw [hasInvalidExecutionPayload, show List.lookup execKey c3Map = some 1 from rfl]
  rw [decide_eq_false_iff_not]
  norm_num

lemma c3Map_hAtt : hasInvalidAttestations c3Map 2 = false := by
  rw [hasInvalidAttestations, show List.lookup attKey c3Map = some 1 from rfl]
  rw [decide_eq_false_iff_not]
  norm_num

lemma c3Map_clamp : clampCorrect c3Map 2 = c3Map := by
  rw [clampCorrect, c3Map_hEP, c3Map_hAtt]
  simp only [adjustValue_false_false]
  norm_num [c3Map, min_def]

lemma c3Map_sum : sumValues c3Map = 3 := by
  norm_num [sumValues, c3Map]

lemma c3Map_rescale : rescale c3Map 2 = c3Map := by
  rw [rescale_of_lt (by rw [c3Map_sum]; norm_num), c3Map_sum]
  norm_num [c3Map, round_eq]

/-- C3 counterexample: for the 8-field map with three values 1 against
ssz_size 2, the clamped values sum to 3 > 2, yet the rescale-and-round step
returns values again summing to 3 > 2 (each round(1 * 2/3) = 1), so the
corrected sum is not at most ssz_size. -/
theorem c3_counterexample :
    (2 : ℤ) < sumValues (clampCorrect c3Map 2)
    ∧ ¬ sumValues (normalizeComponents c3Map 2) ≤ (2 : ℤ) := by
  constructor
  · rw [c3Map_clamp, c3Map_sum]
    norm_num
  · rw [normalizeComponents, c3Map_clamp, c3Map_rescale, c3Map_sum]
    norm_num

/-- C3 amended: when the clamped values sum to more than ssz_size, every
output value is round(value * ssz_size / componentsSum), hence within 1/2 of
its exact proportional share (proportions preserved within rounding), and
the output total is at most ssz_size + n/2 where n is the number of
components (rather than at most ssz_size, which the rounding can exceed). -/
theorem c3_amended_rescale_bound (m : ComponentMap) (ssz : ℕ)
    (h : (ssz : ℤ) < sumValues (clampCorrect m ssz)) :
    ((sumValues (normalizeComponents m ssz) : ℤ) : ℚ) ≤ (ssz : ℚ) + (m.length : ℚ) / 2
    ∧ List.Forall₂
        (fun p q : Entry => q.1 = p.1 ∧
          |(q.2 : ℚ) - (p.2 : ℚ) * ((ssz : ℚ) / ((sumValues (clampCorrect m ssz) : ℤ) : ℚ))|
            ≤ 1 / 2)
        (clampCorrect m ssz) (normalizeComponents m ssz) := by
  constructor
  · rw [normalizeComponents]
    have h0 := sumValues_rescale_le (clampCorrect m ssz) ssz h
    have hlen : (clampCorrect m ssz).length = m.length := by
      simp [clampCorrect]
    rwa [hlen] at h0
  · rw [normalizeComponents, rescale_of_lt h]
    rw [List.forall₂_map_right_iff]
    apply List.forall₂_same.mpr
    intro e _
    refine ⟨rfl, ?_⟩
    have h0 := abs_sub_round
      ((e.2 : ℚ) * ((ssz : ℚ) / ((sumValues (clampCorrect m ssz) : ℤ) : ℚ)))
    rwa [abs_sub_comm] at h0

/-- Witness for C3 amended at the concrete overflowing map. -/
theorem c3_amended_rescale_bound_witness :
    ((sumValues (normalizeComponents c3Map 2) : ℤ) : ℚ) ≤ ((2 : ℕ) : ℚ) + (c3Map.length : ℚ) / 2 :=
  (c3_amended_rescale_bound c3Map 2 (by rw [c3Map_clamp, c3Map_sum]; norm_num)).1

/-! Lemmas about the stable descending sort and the aggregator. -/

lemma sortDesc_trans :
    ∀ a b c : Entry, (fun p q : Entry => decide (q.2 ≤ p.2)) a b →
      (fun p q : Entry => decide (q.2 ≤ p.2)) b c →
      (fun p q : Entry => decide (q.2 ≤ p.2)) a c := by
  intro a b c hab hbc
  exact decide_eq_true (le_trans (of_decide_eq_true hbc) (of_decide_eq_true hab))

lemma sortDesc_total :
    ∀ a b : Entry, ((fun p q : Entry => decide (q.2 ≤ p.2)) a b
      || (fun p q : Entry => decide (q.2 ≤ p.2)) b a) = true := by
  intro a b
  simp only [Bool.or_eq_true, decide_eq_true_eq]
  exact le_total b.2 a.2

lemma sortDesc_perm (m : ComponentMap) : List.Perm (sortDesc m) m :=
  List.mergeSort_perm m _

lemma sortDesc_length (m : ComponentMap) : (sortDesc m).length = m.length :=
  (sortDesc_perm m).length_eq

lemma sortDesc_pairwise (m : ComponentMap) :
    (sortDesc m).Pairwise (fun p q : Entry => q.2 ≤ p.2) := by
  have h := List.sorted_mergeSort sortDesc_trans sortDesc_total m
  exact h.imp (fun hab => of_decide_eq_true hab)

lemma sortDesc_stable (m : ComponentMap) {p q : Entry} (hpq : q.2 ≤ p.2)
    (hsub : [p, q].Sublist m) : [p, q].Sublist (sortDesc m) :=
  List.pair_sublist_mergeSort sortDesc_trans sortDesc_total (decide_eq_true hpq) hsub

lemma pieEntries_short (m : ComponentMap) (h : m.length ≤ 2) :
    pieEntries m = (sortDesc m).map entryItem := by
  have hlen := sortDesc_length m
  simp only [pieEntries]
  rw [if_neg (by omega)]
  rcases Nat.eq_zero_or_pos m.length with h0 | h0
  · have hnil : sortDesc m = [] := List.eq_nil_of_length_eq_zero (by omega)
    rw [if_neg (by omega)]
    rw [hnil]
    rfl
  · rw [if_pos (by omega)]
    rw [List.take_of_length_le (by omega)]

lemma pieEntries_other (m : ComponentMap) (h2 : 2 < m.length)
    (hpos : 0 < sumValues ((sortDesc m).drop 2)) :
    pieEntries m = ((sortDesc m).take 2).map entryItem
      ++ [⟨otherKey, sumValues ((sortDesc m).drop 2), (sortDesc m).drop 2⟩] := by
  have hlen := sortDesc_length m
  simp only [pieEntries]
  rw [if_pos (by omega : 2 < (sortDesc m).length)]
  rw [if_pos hpos]
  rw [if_pos (by omega : 0 < (sortDesc m).length)]

lemma pieEntries_noOther (m : ComponentMap) (h2 : 2 < m.length)
    (hnp : ¬ 0 < sumValues ((sortDesc m).drop 2)) :
    pieEntries m = ((sortDesc m).take 2).map entryItem := by
  have hlen := sortDesc_length m
  simp only [pieEntries]
  rw [if_pos (by omega : 2 < (sortDesc m).length)]
  rw [if_neg hnp]
  rw [if_pos (by omega : 0 < (sortDesc m).length)]

lemma sumValues_append (a b : ComponentMap) :
    sumValues (a ++ b) = sumValues a + sumValues b := by
  simp [sumValues]

lemma sumValues_take_drop (m : ComponentMap) (n : ℕ) :
    sumValues (m.take n) + sumValues (m.drop n) = sumValues m := by
  rw [← sumValues_append, List.take_append_drop]

lemma sumValues_perm {a b : ComponentMap} (h : List.Perm a b) : sumValues a = sumValues b :=
  (h.map Prod.snd).sum_eq

lemma pieTotal_map_entryItem (l : ComponentMap) :
    pieTotal (l.map entryItem) = sumValues l := by
  simp [pieTotal, sumValues, List.map_map, entryItem, Function.comp_def]

lemma pieTotal_append (a b : List PieItem) :
    pieTotal (a ++ b) = pieTotal a + pieTotal b := by
  simp [pieTotal]

lemma pieEntries_length (m : ComponentMap) : (pieEntries m).length ≤ 3 := by
  have hlen := sortDesc_length m
  by_cases h2 : 2 < m.length
  · by_cases hp : 0 < sumValues ((sortDesc m).drop 2)
    · rw [pieEntries_other m h2 hp]
      simp only [List.length_append, List.length_map, List.length_take, List.length_singleton]
      omega
    · rw [pieEntries_noOther m h2 hp]
      simp only [List.length_map, List.length_take]
      omega
  · rw [pieEntries_short m (by omega)]
    simp only [List.length_map]
    omega

lemma sortDesc_nonneg {m : ComponentMap} (hnn : ∀ p ∈ m, 0 ≤ p.2) :
    ∀ p ∈ sortDesc m, 0 ≤ p.2 := by
  intro p hp
  exact hnn p ((sortDesc_perm m).mem_iff.mp hp)

lemma pieTotal_pieEntries (m : ComponentMap) (hnn : ∀ p ∈ m, 0 ≤ p.2) :
    pieTotal (pieEntries m) = sumValues m := by
  have hperm := sumValues_perm (sortDesc_perm m)
  by_cases h2 : 2 < m.length
  · by_cases hp : 0 < sumValues ((sortDesc m).drop 2)
    · rw [pieEntries_other m h2 hp, pieTotal_append, pieTotal_map_entryItem]
      have hsplit := sumValues_take_drop (sortDesc m) 2
      have hsing : pieTotal [⟨otherKey, sumValues ((sortDesc m).drop 2), (sortDesc m).drop 2⟩]
          = sumValues ((sortDesc m).drop 2) := by
        simp [pieTotal]
      rw [hsing]
      omega
    · have hz : sumValues ((sortDesc m).drop 2) = 0 := by
        have hnn2 : ∀ x ∈ ((sortDesc m).drop 2).map Prod.snd, (0 : ℤ) ≤ x := by
          intro x hx
          obtain ⟨p, hpmem, rfl⟩ := List.mem_map.mp hx
          exact sortDesc_nonneg hnn p (List.mem_of_mem_drop hpmem)
        have hge : 0 ≤ sumValues ((sortDesc m).drop 2) := List.sum_nonneg hnn2
        omega
      rw [pieEntries_noOther m h2 hp, pieTotal_map_entryItem]
      have hsplit := sumValues_take_drop (sortDesc m) 2
      omega
  · rw [pieEntries_short m (by omega), pieTotal_map_entryItem]
    exact hperm

/-- C5: the aggregator emits at most 3 entries: the image under a stable
descending sort (a permutation of the corrected map, pairwise descending,
order of equal values taken from the original map) of the 2 largest
components, plus one Other entry whose value is the sum of the remaining
components and which retains each folded-in component, omitted exactly when
that remainder is zero. -/
theorem c5_aggregator_top2_other (m : ComponentMap) (hnn : ∀ p ∈ m, 0 ≤ p.2) :
    (pieEntries m).length ≤ 3
    ∧ List.Perm (sortDesc m) m
    ∧ (sortDesc m).Pairwise (fun p q : Entry => q.2 ≤ p.2)
    ∧ (∀ p q : Entry, q.2 ≤ p.2 → [p, q].Sublist m → [p, q].Sublist (sortDesc m))
    ∧ (2 < m.length → sumValues ((sortDesc m).drop 2) ≠ 0 →
        pieEntries m = ((sortDesc m).take 2).map entryItem
          ++ [⟨otherKey, sumValues ((sortDesc m).drop 2), (sortDesc m).drop 2⟩])
    ∧ (2 < m.length → sumValues ((sortDesc m).drop 2) = 0 →
        pieEntries m = ((sortDesc m).take 2).map entryItem)
    ∧ (m.length ≤ 2 → pieEntries m = (sortDesc m).map entryItem) := by
  refine ⟨pieEntries_length m, sortDesc_perm m, sortDesc_pairwise m,
    fun p q hpq hsub => sortDesc_stable m hpq hsub, ?_, ?_, fun h => pieEntries_short m h⟩
  · intro h2 hne
    have hnn2 : ∀ x ∈ ((sortDesc m).drop 2).map Prod.snd, (0 : ℤ) ≤ x := by
      intro x hx
      obtain ⟨p, hpmem, rfl⟩ := List.mem_map.mp hx
      exact sortDesc_nonneg hnn p (List.mem_of_mem_drop hpmem)
    have hge : 0 ≤ sumValues ((sortDesc m).drop 2) := List.sum_nonneg hnn2
    exact pieEntries_other m h2 (by omega)
  · intro h2 hz
    exact pieEntries_noOther m h2 (by omega)

/-- Witness for C5 at a concrete corrected map. -/
theorem c5_aggregator_top2_other_witness : (pieEntries c6Map).length ≤ 3 :=
  (c5_aggregator_top2_other c6Map (by decide)).1

/-! Lemmas about the final pie re-normalization. -/

lemma renormalizePie_close (pie : List PieItem) (ssz : ℕ)
    (h : |pieTotal pie - (ssz : ℤ)| ≤ 1) : renormalizePie pie ssz = pie := by
  simp only [renormalizePie]
  rw [if_neg (not_lt.mpr h)]

lemma renormalizePie_far (pie : List PieItem) (ssz : ℕ)
    (h : 1 < |pieTotal pie - (ssz : ℤ)|) :
    renormalizePie pie ssz =
      pie.map (fun it =>
        { it with value := round ((it.value : ℚ) * ((ssz : ℚ) / ((pieTotal pie : ℤ) : ℚ))) }) := by
  simp only [renormalizePie]
  rw [if_pos h]

lemma renormalizePie_far_total (pie : List PieItem) (ssz : ℕ)
    (h : 1 < |pieTotal pie - (ssz : ℤ)|) (ht : pieTotal pie ≠ 0) :
    |((pieTotal (renormalizePie pie ssz) : ℤ) : ℚ) - (ssz : ℚ)| ≤ (pie.length : ℚ) / 2 := by
  rw [renormalizePie_far pie ssz h]
  have hmap : pieTotal (pie.map (fun it =>
        { it with value := round ((it.value : ℚ) * ((ssz : ℚ) / ((pieTotal pie : ℤ) : ℚ))) }))
      = ((pie.map (fun it => (it.value : ℚ) * ((ssz : ℚ) / ((pieTotal pie : ℤ) : ℚ)))).map
          (fun x => round x)).sum := by
    simp [pieTotal, List.map_map, Function.comp_def]
  rw [hmap]
  have hsum : (pie.map (fun it => (it.value : ℚ) * ((ssz : ℚ) / ((pieTotal pie : ℤ) : ℚ)))).sum
      = (ssz : ℚ) := by
    rw [List.sum_map_mul_right]
    have hc : ((pieTotal pie : ℤ) : ℚ) = (pie.map (fun it => ((it.value : ℤ) : ℚ))).sum := by
      rw [pieTotal, Int.cast_list_sum, List.map_map]
      rfl
    rw [← hc]
    have hne : ((pieTotal pie : ℤ) : ℚ) ≠ 0 := Int.cast_ne_zero.mpr ht
    rw [mul_comm, div_mul_cancel₀ _ hne]
  have h0 := abs_sum_round_sub
    (pie.map (fun it => (it.value : ℚ) * ((ssz : ℚ) / ((pieTotal pie : ℤ) : ℚ))))
  rw [hsum] at h0
  simpa using h0

/-- C6 amended: before the final double-check the aggregator output sums
exactly to componentsSum; the final step however compares that total with
ssz_size, not with componentsSum: when they differ by at most 1 the data is
returned unchanged (so the displayed sum equals componentsSum), but when
they differ by more than 1 the values are rescaled so that the displayed
sum is within 1 of ssz_size, which can be arbitrarily far from
componentsSum. -/
theorem c6_amended_renormalize_to_ssz (c : ComponentMap) (ssz : ℕ)
    (hnn : ∀ p ∈ c, 0 ≤ p.2) :
    pieTotal (pieEntries c) = sumValues c
    ∧ (|sumValues c - (ssz : ℤ)| ≤ 1 → renormalizePie (pieEntries c) ssz = pieEntries c)
    ∧ (1 < |sumValues c - (ssz : ℤ)| → sumValues c ≠ 0 →
        |pieTotal (renormalizePie (pieEntries c) ssz) - (ssz : ℤ)| ≤ 1) := by
  have htot := pieTotal_pieEntries c hnn
  refine ⟨htot, ?_, ?_⟩
  · intro h
    exact renormalizePie_close _ _ (by rw [htot]; exact h)
  · intro h hne
    have h2 : 1 < |pieTotal (pieEntries c) - (ssz : ℤ)| := by
      rw [htot]
      exact h
    have ht : pieTotal (pieEntries c) ≠ 0 := by
      rw [htot]
      exact hne
    have hb := renormalizePie_far_total (pieEntries c) ssz h2 ht
    have hlen : ((pieEntries c).length : ℚ) ≤ 3 := by
      exact_mod_cast pieEntries_length c
    have hb2 : |((pieTotal (renormalizePie (pieEntries c) ssz) : ℤ) : ℚ) - (ssz : ℚ)|
        ≤ 3 / 2 := le_trans hb (by linarith)
    by_contra hcon
    push_neg at hcon
    have hint : (2 : ℤ) ≤ |pieTotal (renormalizePie (pieEntries c) ssz) - (ssz : ℤ)| := hcon
    have hcast : (2 : ℚ) ≤ |((pieTotal (renormalizePie (pieEntries c) ssz) : ℤ) : ℚ) - (ssz : ℚ)| := by
      exact_mod_cast hint
    linarith

/-! Evaluation of the C6 example map through the display pipeline. -/

lemma c6Map_hEP : hasInvalidExecutionPayload c6Map 100 = false := by
  rw [hasInvalidExecutionPayload, show List.lookup execKey c6Map = some 30 from rfl]
  rw [decide_eq_false_iff_not]
  norm_num

lemma c6Map_hAtt : hasInvalidAttestations c6Map 100 = false := by
  rw [hasInvalidAttestations, show List.lookup attKey c6Map = some 10 from rfl]
  rw [decide_eq_false_iff_not]
  norm_num

lemma c6Map_sum : sumValues c6Map = 45 := by
  norm_num [sumValues, c6Map]

lemma c6Map_normalize : normalizeComponents c6Map 100 = c6Map := by
  have hcl : clampCorrect c6Map 100 = c6Map := by
    rw [clampCorrect, c6Map_hEP, c6Map_hAtt]
    simp only [adjustValue_false_false]
    norm_num [c6Map, min_def]
  rw [normalizeComponents, hcl]
  apply rescale_of_le
  rw [c6Map_sum]
  norm_num

lemma c6Map_sorted : sortDesc c6Map = c6Map := by
  apply List.mergeSort_of_sorted
  decide

lemma c6Map_pie : pieEntries c6Map =
    [entryItem (execKey, 30), entryItem (attKey, 10),
     ⟨otherKey, 5, [(depKey, 5), (propSlashKey, 0), (attSlashKey, 0),
                    (volExitKey, 0), (syncKey, 0), (blobKey, 0)]⟩] := by
  have h2 : 2 < c6Map.length := by
    norm_num [c6Map]
  have hp : 0 < sumValues ((sortDesc c6Map).drop 2) := by
    rw [c6Map_sorted]
    norm_num [c6Map, sumValues]
  rw [pieEntries_other c6Map h2 hp, c6Map_sorted]
  norm_num [c6Map, sumValues]

lemma c6Map_final : pieTotal (blockPieData c6Map 100) = 100 := by
  rw [blockPieData, c6Map_normalize, c6Map_pie]
  have htot : pieTotal
      [entryItem (execKey, 30), entryItem (attKey, 10),
       ⟨otherKey, 5, [(depKey, 5), (propSlashKey, 0), (attSlashKey, 0),
                      (volExitKey, 0), (syncKey, 0), (blobKey, 0)]⟩] = 45 := by
    norm_num [pieTotal, entryItem]
  rw [renormalizePie_far _ _ (by rw [htot]; norm_num), htot]
  norm_num [pieTotal, entryItem, round_eq]

/-- C6 counterexample: for a corrected map summing to 45 displayed against
an ssz_size of 100, the final re-normalization rescales the aggregated
values to total 100, which differs from componentsSum = 45 by 55, violating
the within-1-unit claim. -/
theorem c6_counterexample :
    sumValues (normalizeComponents c6Map 100) = 45
    ∧ pieTotal (blockPieData c6Map 100) = 100
    ∧ ¬ |pieTotal (blockPieData c6Map 100) - sumValues (normalizeComponents c6Map 100)| ≤ 1 := by
  refine ⟨by rw [c6Map_normalize, c6Map_sum], c6Map_final, ?_⟩
  rw [c6Map_final, c6Map_normalize, c6Map_sum]
  norm_num

/-- Witness for C6 amended: with an ssz_size within 1 of the corrected sum,
the aggregated data is returned unchanged. -/
theorem c6_amended_renormalize_to_ssz_witness :
    renormalizePie (pieEntries c6Map) 44 = pieEntries c6Map :=
  (c6_amended_renormalize_to_ssz c6Map 44 (by decide)).2.1
    (by rw [c6Map_sum]; norm_num)

end BlockVibe
